import Mathlib

/-
  Verification of the sqlite-up migration engine (src/index.ts) against its
  natural-language specification.  The engine state is embedded shallowly:
  the SQLite database is a record holding the schema_migrations ledger, the
  schema_migrations_lock flag and an abstract user-schema state sigma; the
  migration operations are functions sigma -> Except eps sigma; SQL queries
  become list operations; better-sqlite3 transactions become revert-on-error
  state passing.  Failure injection points of the underlying driver
  (INSERT / DELETE / lock UPDATE failures) are carried by a Behaviour record.
-/

namespace SqliteUp

/-- Row of the schema_migrations table: name TEXT PRIMARY KEY,
executed_at TEXT NOT NULL, batch INTEGER NOT NULL. -/
structure LedgerRow where
  name : String
  executed_at : String
  batch : Nat
  deriving DecidableEq, Repr

/-- Database state: the ledger table, the single lock row of
schema_migrations_lock (locked = 1 iff `locked = true`), and the
user-visible schema state mutated by migration operations. -/
structure Db (σ : Type) where
  ledger : List LedgerRow
  locked : Bool
  user : σ
  deriving DecidableEq, Repr

/-- A migration unit as loaded from a file: name plus up/down operations.
Operations act on the user schema state and may raise (Except.error). -/
structure Migration (σ ε : Type) where
  name : String
  up : σ → Except ε σ
  down : σ → Except ε σ

/-- Error taxonomy of errors.js.  `execution` wraps a cause like
MigrationExecutionError(message, cause); `user` is an error raised by a
migration operation or an event listener; `db` is a raw driver error. -/
inductive Err (ε : Type) where
  | migration (msg : String)
  | file (msg : String)
  | lock (msg : String)
  | execution (msg : String) (cause : Err ε)
  | db (msg : String)
  | user (e : ε)
  deriving DecidableEq, Repr

/-- Returns true iff the error is a MigrationFileError (not merely wraps one). -/
def Err.isFileErr : Err ε → Bool
  | .file _ => true
  | _ => false

/-- Result object returned by apply() and rollback(). -/
structure MigrationResult (ε : Type) where
  success : Bool
  error : Option (Err ε)
  appliedMigrations : List String
  deriving DecidableEq, Repr

/-- Status object returned by status().  `pending` is an integer because the
source computes `this.migrations.length - appliedNames.size`, which can be
negative when the ledger holds names outside the catalog. -/
structure MigrationStatus where
  currentBatch : Nat
  pending : Int
  applied : List LedgerRow
  deriving DecidableEq, Repr

/-- Observable happenings of one engine call: a transaction being opened by
runTransaction, and the migration:applied / migration:rollback events
delivered to listeners (delivery happens even if the transaction later
aborts, since EventEmitter calls are not transactional). -/
inductive Event where
  | txBegin
  | applied (name : String) (batch : Nat)
  | rolledBack (name : String) (batch : Nat)
  deriving DecidableEq, Repr

/-- Failure-injection model for the underlying database driver plus the
clock: `now` is the ISO timestamp written by recordMigration;
`acquireUpdateFails` makes the UPDATE inside acquireLock throw;
`releaseFails` makes the UPDATE inside releaseLock throw; `insertFails` /
`deleteFails` make the ledger INSERT / DELETE for a given name throw. -/
structure Behaviour (ε : Type) where
  now : String
  acquireUpdateFails : Bool
  releaseFails : Bool
  insertFails : String → Bool
  deleteFails : String → Bool

/-- The Migrator: its loaded catalog, the outcome of init() (some err when
initTables or loadMigrationsFromDirectory throws), and the registered
listeners for the two events (fun _ _ => Except.ok () models no listener,
since an absent listener never throws). -/
structure Migrator (σ ε : Type) where
  migrations : List (Migration σ ε)
  initErr : Option (Err ε)
  onApplied : String → Nat → Except ε Unit
  onRollback : String → Nat → Except ε Unit

variable {σ ε : Type}

/-- Lexicographic (non-strict) comparison of char lists by code point,
embedding the string ordering used by JavaScript sort() and by SQLite
ORDER BY on the migration names. -/
def listLe : List Char → List Char → Bool
  | [], _ => true
  | _ :: _, [] => false
  | a :: as, b :: bs =>
    if a.toNat < b.toNat then true
    else if b.toNat < a.toNat then false
    else listLe as bs

/-- Lexicographic strict comparison of char lists by code point. -/
def listLt : List Char → List Char → Bool
  | [], [] => false
  | [], _ :: _ => true
  | _ :: _, [] => false
  | a :: as, b :: bs =>
    if a.toNat < b.toNat then true
    else if b.toNat < a.toNat then false
    else listLt as bs

/-- Non-strict lexicographic order on strings. -/
def strLe (a b : String) : Bool := listLe a.data b.data

/-- Strict lexicographic order on strings. -/
def strLt (a b : String) : Bool := listLt a.data b.data

/-- Suffix test on char lists (checked on the reversed lists), embedding
JavaScript String.prototype.endsWith. -/
def listIsPrefixB : List Char → List Char → Bool
  | [], _ => true
  | _ :: _, [] => false
  | a :: as, b :: bs => if a = b then listIsPrefixB as bs else false

/-- Embedding of file.endsWith(suffix). -/
def strEndsWith (s suffix : String) : Bool :=
  listIsPrefixB suffix.data.reverse s.data.reverse

/-- SELECT MAX(batch) FROM schema_migrations, with null coalesced to 0. -/
def getCurrentBatch (db : Db σ) : Nat :=
  (db.ledger.map LedgerRow.batch).foldr max 0

/-- SELECT name FROM schema_migrations. -/
def ledgerNames (db : Db σ) : List String :=
  db.ledger.map LedgerRow.name

/-- Pending migrations: catalog units whose name is not present in the
ledger, in catalog order (apply(), lines 264-273). -/
def pendingOf (m : Migrator σ ε) (db : Db σ) : List (Migration σ ε) :=
  m.migrations.filter (fun mg => decide (mg.name ∉ ledgerNames db))

/-- Message of the MigrationExecutionError thrown by the per-unit catch in
both apply() and rollback() (the apply() message is a copy-paste of the
rollback one in the source, and is embedded faithfully). -/
def execMsg (name : String) : String :=
  "Failed to rollback migration \"" ++ name ++ "\""

/-- Message of the MigrationFileError thrown when rollback() cannot resolve
a recorded migration name in the catalog. -/
def notFoundMsg (name : String) : String :=
  "Migration \"" ++ name ++ "\" not found."

/-- Body of the transaction opened by apply() (lines 279-296): for each
pending unit run up(), INSERT its ledger row, push its name, emit the
applied event; any raise stops the loop and is wrapped as
MigrationExecutionError.  Returns the database state reached, the events
delivered, the names pushed onto appliedMigrations, and the error if any.
The caller reverts the database (not the pushed names or events) on error. -/
def runApplyTx (m : Migrator σ ε) (b : Behaviour ε) (nextBatch : Nat) :
    Db σ → List (Migration σ ε) → Db σ × List Event × List String × Option (Err ε)
  | db, [] => (db, [], [], none)
  | db, mg :: rest =>
    match mg.up db.user with
    | .error e => (db, [], [], some (.execution (execMsg mg.name) (.user e)))
    | .ok u =>
      let db1 : Db σ := { db with user := u }
      if b.insertFails mg.name || decide (mg.name ∈ ledgerNames db1) then
        (db1, [], [], some (.execution (execMsg mg.name) (.db "insert failed")))
      else
        let db2 : Db σ := { db1 with ledger := db1.ledger ++ [⟨mg.name, b.now, nextBatch⟩] }
        match m.onApplied mg.name nextBatch with
        | .error e =>
          (db2, [.applied mg.name nextBatch], [mg.name],
            some (.execution (execMsg mg.name) (.user e)))
        | .ok _ =>
          match runApplyTx m b nextBatch db2 rest with
          | (db3, evs, names, err) =>
            (db3, .applied mg.name nextBatch :: evs, mg.name :: names, err)

/-- The finally clause of apply()/rollback(): releaseLock() sets locked = 0;
if its UPDATE throws, the MigrationLockError replaces the pending return
value and propagates to the caller (a throw in a finally block overrides
the try outcome). -/
def finallyRelease (b : Behaviour ε) (db : Db σ) (evs : List Event)
    (res : MigrationResult ε) : Db σ × List Event × Except (Err ε) (MigrationResult ε) :=
  if b.releaseFails then (db, evs, .error (.lock "Failed to release migration lock"))
  else ({ db with locked := false }, evs, .ok res)

/-- apply() (lines 236-307): init, acquireLock, compute pending, run the
batch transaction, release the lock in a finally.  Returns the final
database state, the events delivered, and either the Result object or the
exception that propagated to the caller. -/
def Migrator.apply (m : Migrator σ ε) (b : Behaviour ε) (db : Db σ) :
    Db σ × List Event × Except (Err ε) (MigrationResult ε) :=
  match m.initErr with
  | some e => (db, [], .ok ⟨false, some e, []⟩)
  | none =>
    if db.locked then
      (db, [], .ok ⟨false, some (.lock "Migration lock already held by another process."), []⟩)
    else if b.acquireUpdateFails then
      (db, [], .ok ⟨false, some (.lock "Failed to acquire migration lock"), []⟩)
    else
      let db1 : Db σ := { db with locked := true }
      let nextBatch := getCurrentBatch db + 1
      let pending := pendingOf m db
      if pending.isEmpty then
        finallyRelease b db1 [] ⟨true, none, []⟩
      else
        match runApplyTx m b nextBatch db1 pending with
        | (db2, evs, names, none) =>
          finallyRelease b db2 (Event.txBegin :: evs) ⟨true, none, names⟩
        | (_, evs, _, some e) =>
          finallyRelease b db1 (Event.txBegin :: evs) ⟨false, some e, []⟩

/-- Ordering used by rollback's SELECT ... ORDER BY name DESC. -/
def rowNameDesc (a b : LedgerRow) : Prop := strLe b.name a.name = true

instance : DecidableRel (rowNameDesc) := fun a b =>
  inferInstanceAs (Decidable (strLe b.name a.name = true))

/-- SELECT name FROM schema_migrations WHERE batch = currentBatch
ORDER BY name DESC (rollback(), lines 344-354). -/
def lastBatchRows (db : Db σ) : List LedgerRow :=
  List.insertionSort rowNameDesc
    (db.ledger.filter (fun r => decide (r.batch = getCurrentBatch db)))

/-- Body of the transaction opened by rollback() (lines 362-385): for each
row of the most recent batch resolve the catalog unit (MigrationFileError
if absent), run down(), DELETE the ledger row, push the name, emit the
rollback event; raises are wrapped as MigrationExecutionError. -/
def runRollbackTx (m : Migrator σ ε) (b : Behaviour ε) (batch : Nat) :
    Db σ → List LedgerRow → Db σ × List Event × List String × Option (Err ε)
  | db, [] => (db, [], [], none)
  | db, row :: rest =>
    match m.migrations.find? (fun mg => decide (mg.name = row.name)) with
    | none => (db, [], [], some (.file (notFoundMsg row.name)))
    | some mg =>
      match mg.down db.user with
      | .error e => (db, [], [], some (.execution (execMsg mg.name) (.user e)))
      | .ok u =>
        let db1 : Db σ := { db with user := u }
        if b.deleteFails mg.name then
          (db1, [], [], some (.execution (execMsg mg.name) (.db "delete failed")))
        else
          let db2 : Db σ :=
            { db1 with ledger :=
                db1.ledger.filter (fun r => !decide (r.name = mg.name ∧ r.batch = batch)) }
          match m.onRollback mg.name batch with
          | .error e =>
            (db2, [.rolledBack mg.name batch], [mg.name],
              some (.execution (execMsg mg.name) (.user e)))
          | .ok _ =>
            match runRollbackTx m b batch db2 rest with
            | (db3, evs, names, err) =>
              (db3, .rolledBack mg.name batch :: evs, mg.name :: names, err)

/-- The catch of rollback() (lines 388-393): keep a MigrationExecutionError
as is, wrap anything else (including the MigrationFileError for a missing
unit) in MigrationExecutionError with message Rollback failed. -/
def wrapRollbackErr (e : Err ε) : Err ε :=
  match e with
  | .execution msg cause => .execution msg cause
  | other => .execution "Rollback failed" other

/-- rollback() (lines 313-397): init, acquireLock, find the most recent
batch, run the rollback transaction over its rows in descending name
order, release the lock in a finally.  On failure the Result carries the
names pushed before the raise (the array survives the transaction abort). -/
def Migrator.rollback (m : Migrator σ ε) (b : Behaviour ε) (db : Db σ) :
    Db σ × List Event × Except (Err ε) (MigrationResult ε) :=
  match m.initErr with
  | some e => (db, [], .ok ⟨false, some e, []⟩)
  | none =>
    if db.locked then
      (db, [], .ok ⟨false, some (.lock "Migration lock already held by another process."), []⟩)
    else if b.acquireUpdateFails then
      (db, [], .ok ⟨false, some (.lock "Failed to acquire migration lock"), []⟩)
    else
      let db1 : Db σ := { db with locked := true }
      let currentBatch := getCurrentBatch db
      if currentBatch = 0 then
        finallyRelease b db1 [] ⟨true, none, []⟩
      else
        let rows := lastBatchRows db
        if rows.isEmpty then
          finallyRelease b db1 [] ⟨true, none, []⟩
        else
          match runRollbackTx m b currentBatch db1 rows with
          | (db2, evs, names, none) =>
            finallyRelease b db2 (Event.txBegin :: evs) ⟨true, none, names⟩
          | (_, evs, names, some e) =>
            finallyRelease b db1 (Event.txBegin :: evs) ⟨false, some (wrapRollbackErr e), names⟩

/-- Ordering used by status's SELECT ... ORDER BY batch ASC, name ASC. -/
def rowBatchNameLe (a b : LedgerRow) : Prop :=
  a.batch < b.batch ∨ (a.batch = b.batch ∧ strLe a.name b.name = true)

instance : DecidableRel (rowBatchNameLe) := fun a b =>
  inferInstanceAs
    (Decidable (a.batch < b.batch ∨ (a.batch = b.batch ∧ strLe a.name b.name = true)))

/-- status() (lines 406-435): currentBatch, pending computed as
migrations.length minus the number of distinct ledger names (the Set
size), applied ordered by batch ascending then name ascending.  An init()
failure propagates to the caller. -/
def Migrator.status (m : Migrator σ ε) (db : Db σ) :
    Except (Err ε) MigrationStatus :=
  match m.initErr with
  | some e => .error e
  | none =>
    .ok { currentBatch := getCurrentBatch db
          pending := (m.migrations.length : Int) -
            ((db.ledger.map LedgerRow.name).dedup.length : Int)
          applied := List.insertionSort rowBatchNameLe db.ledger }

/-- Count of catalog units whose name is not present in the ledger.  This
definition follows the words of the specification for status().pending and
is compared against the source's computation. -/
def specStatusPendingCount (m : Migrator σ ε) (db : Db σ) : Int :=
  ((m.migrations.filter (fun mg => decide (mg.name ∉ ledgerNames db))).length : Int)

/-- Content of one directory entry: a module that fails to import, or a
module exporting optional up/down values (non-functions or absent exports
are both modelled as none). -/
inductive ModuleLoad (σ ε : Type) where
  | failed (msg : String)
  | loaded (up : Option (σ → Except ε σ)) (down : Option (σ → Except ε σ))

/-- A filename together with the module it denotes. -/
structure DirEntry (σ ε : Type) where
  name : String
  content : ModuleLoad σ ε

/-- Filter of loadMigrationsFromDirectory (line 104): keep entries ending
in .ts or .js. -/
def isMigrationFile (name : String) : Bool :=
  strEndsWith name ".ts" || strEndsWith name ".js"

/-- Ordering of the filename sort in loadMigrationsFromDirectory. -/
def entryNameLe (a b : DirEntry σ ε) : Prop := strLe a.name b.name = true

instance : DecidableRel (@entryNameLe σ ε) := fun a b =>
  inferInstanceAs (Decidable (strLe a.name b.name = true))

/-- The per-file loop of loadMigrationsFromDirectory (lines 108-134): it
loads each file, requires up and down, fails fast with MigrationFileError. -/
def loadFiles : List (DirEntry σ ε) → Except (Err ε) (List (Migration σ ε))
  | [] => .ok []
  | e :: rest =>
    match e.content with
    | .failed msg =>
      .error (.file ("Error loading migration \"" ++ e.name ++ "\": " ++ msg))
    | .loaded up? down? =>
      match up?, down? with
      | some u, some d =>
        match loadFiles rest with
        | .error err => .error err
        | .ok l => .ok (⟨e.name, u, d⟩ :: l)
      | _, _ =>
        .error (.file ("Migration \"" ++ e.name ++ "\" must export \"up\" and \"down\" functions."))

/-- loadMigrationsFromDirectory (lines 99-143): readdir (which may fail),
filter to .ts/.js files, sort alphabetically, load each file. -/
def loadMigrationsFromDirectory (listing : Except String (List (DirEntry σ ε))) :
    Except (Err ε) (List (Migration σ ε)) :=
  match listing with
  | .error _ => .error (.file "Failed to load migrations")
  | .ok entries =>
    loadFiles (List.insertionSort entryNameLe
      (entries.filter (fun e => isMigrationFile e.name)))

/-! Concrete instances used by witnesses and counterexamples. -/

/-- A listener that always returns normally (equivalently, no listener). -/
def okListener : String → Nat → Except Unit Unit := fun _ _ => .ok ()

/-- A listener that throws whenever it is invoked. -/
def badListener : String → Nat → Except Unit Unit := fun _ _ => .error ()

/-- Another listener that always returns normally, written differently. -/
def branchListener : String → Nat → Except Unit Unit :=
  fun _ k => if k = 0 then .ok () else .ok ()

/-- A driver behaviour in which no injected failure occurs. -/
def cleanB : Behaviour Unit :=
  { now := "2025-01-01T00:00:00.000Z", acquireUpdateFails := false,
    releaseFails := false, insertFails := fun _ => false,
    deleteFails := fun _ => false }

/-- A driver behaviour in which the lock-release UPDATE throws. -/
def relFailB : Behaviour Unit := { cleanB with releaseFails := true }

/-- Identity migration operation. -/
def idOp : Nat → Except Unit Nat := fun s => .ok s

/-- A migration operation that raises. -/
def failOp : Nat → Except Unit Nat := fun _ => .error ()

/-- Sample migration unit 001_a.ts. -/
def unitA : Migration Nat Unit := ⟨"001_a.ts", fun s => .ok (s + 1), fun s => .ok (s - 1)⟩

/-- Sample migration unit 002_b.ts. -/
def unitB : Migration Nat Unit := ⟨"002_b.ts", fun s => .ok (s + 10), fun s => .ok (s - 10)⟩

/-- Variant of 001_a.ts whose down() throws. -/
def unitADownFail : Migration Nat Unit := ⟨"001_a.ts", fun s => .ok (s + 1), failOp⟩

/-- Catalog of two well-behaved units. -/
def migAB : Migrator Nat Unit := ⟨[unitA, unitB], none, okListener, okListener⟩

/-- Catalog of one well-behaved unit. -/
def migOnlyA : Migrator Nat Unit := ⟨[unitA], none, okListener, okListener⟩

/-- Empty catalog. -/
def migEmpty : Migrator Nat Unit := ⟨[], none, okListener, okListener⟩

/-- Catalog of one unit with a throwing applied-event listener. -/
def migABadListener : Migrator Nat Unit := ⟨[unitA], none, badListener, okListener⟩

/-- Catalog of two units where 001_a.ts cannot be rolled back. -/
def migADownFailB : Migrator Nat Unit :=
  ⟨[unitADownFail, unitB], none, okListener, okListener⟩

/-- Fresh database: empty ledger, lock free. -/
def emptyDb : Db Nat := ⟨[], false, 0⟩

/-- Database whose lock row is already held by another process. -/
def lockedDb : Db Nat := ⟨[], true, 0⟩

/-- One recorded migration with no corresponding catalog unit. -/
def dbGhost1 : Db Nat := ⟨[⟨"001_x.ts", "T", 1⟩], false, 0⟩

/-- Both sample units recorded in batch 1. -/
def dbTwoRows : Db Nat := ⟨[⟨"001_a.ts", "T", 1⟩, ⟨"002_b.ts", "T", 1⟩], false, 11⟩

/-- Batch 1 holding 001_a.ts plus a recorded name absent from the catalog. -/
def dbWithGhost : Db Nat := ⟨[⟨"001_a.ts", "T", 1⟩, ⟨"002_ghost.ts", "T", 1⟩], false, 0⟩

/-- A directory listing: two migration files (out of order) and a file to
be ignored (which would fail if it were loaded). -/
def dirListing : List (DirEntry Nat Unit) :=
  [⟨"002_b.ts", .loaded (some idOp) (some idOp)⟩,
   ⟨"README.md", .failed "not a module"⟩,
   ⟨"001_a.js", .loaded (some idOp) (some idOp)⟩]

/-- The catalog that loading dirListing produces. -/
def dirCatalog : List (Migration Nat Unit) :=
  [⟨"001_a.js", idOp, idOp⟩, ⟨"002_b.ts", idOp, idOp⟩]

/-- Ledger and result of a successful migAB.apply on emptyDb. -/
def c1Db : Db Nat :=
  ⟨[⟨"001_a.ts", "2025-01-01T00:00:00.000Z", 1⟩,
    ⟨"002_b.ts", "2025-01-01T00:00:00.000Z", 1⟩], false, 11⟩

/-- Events of a successful migAB.apply on emptyDb. -/
def c1Evs : List Event := [.txBegin, .applied "001_a.ts" 1, .applied "002_b.ts" 1]

/-- Result of a successful migAB.apply on emptyDb. -/
def c1R : MigrationResult Unit := ⟨true, none, ["001_a.ts", "002_b.ts"]⟩

/-! Order lemmas and the instances the sorting lemmas need. -/

theorem listLe_total : ∀ a b : List Char, listLe a b = true ∨ listLe b a = true
  | [], _ => Or.inl rfl
  | _ :: _, [] => Or.inr rfl
  | a :: as, b :: bs => by
    by_cases h1 : a.toNat < b.toNat
    · exact Or.inl (by simp [listLe, h1])
    · by_cases h2 : b.toNat < a.toNat
      · exact Or.inr (by simp [listLe, h2])
      · rcases listLe_total as bs with h | h
        · exact Or.inl (by simp [listLe, h1, h2, h])
        · exact Or.inr (by simp [listLe, h1, h2, h])

theorem listLe_trans : ∀ a b c : List Char,
    listLe a b = true → listLe b c = true → listLe a c = true
  | [], _, _, _, _ => rfl
  | a :: as, [], c, h1, _ => by simp [listLe] at h1
  | a :: as, b :: bs, [], _, h2 => by simp [listLe] at h2
  | a :: as, b :: bs, c :: cs, h1, h2 => by
    simp only [listLe] at h1 h2 ⊢
    rcases Nat.lt_trichotomy a.toNat b.toNat with hab | hab | hab <;>
      rcases Nat.lt_trichotomy b.toNat c.toNat with hbc | hbc | hbc
    · simp [show a.toNat < c.toNat from hab.trans hbc]
    · simp [show a.toNat < c.toNat from hbc ▸ hab]
    · simp [show ¬ b.toNat < c.toNat by omega, show c.toNat < b.toNat from hbc] at h2
    · simp [show a.toNat < c.toNat from hab ▸ hbc]
    · rw [if_neg (show ¬ a.toNat < b.toNat by omega),
        if_neg (show ¬ b.toNat < a.toNat by omega)] at h1
      rw [if_neg (show ¬ b.toNat < c.toNat by omega),
        if_neg (show ¬ c.toNat < b.toNat by omega)] at h2
      rw [if_neg (show ¬ a.toNat < c.toNat by omega),
        if_neg (show ¬ c.toNat < a.toNat by omega)]
      exact listLe_trans as bs cs h1 h2
    · simp [show ¬ b.toNat < c.toNat by omega, show c.toNat < b.toNat from hbc] at h2
    · simp [show ¬ a.toNat < b.toNat by omega, show b.toNat < a.toNat from hab] at h1
    · simp [show ¬ a.toNat < b.toNat by omega, show b.toNat < a.toNat from hab] at h1
    · simp [show ¬ a.toNat < b.toNat by omega, show b.toNat < a.toNat from hab] at h1

theorem listLt_le_false : ∀ a b : List Char,
    listLt a b = true → listLe b a = false
  | [], [], h => by simp [listLt] at h
  | [], b :: bs, _ => rfl
  | a :: as, [], h => by simp [listLt] at h
  | a :: as, b :: bs, h => by
    simp only [listLt] at h
    simp only [listLe]
    by_cases hab : a.toNat < b.toNat
    · rw [if_neg (show ¬ b.toNat < a.toNat by omega), if_pos hab]
    · by_cases hba : b.toNat < a.toNat
      · rw [if_neg hab, if_pos hba] at h
        exact (Bool.false_ne_true h).elim
      · rw [if_neg hab, if_neg hba] at h
        rw [if_neg hba, if_neg hab]
        exact listLt_le_false as bs h

theorem strLe_total (a b : String) : strLe a b = true ∨ strLe b a = true :=
  listLe_total a.data b.data

theorem strLe_trans {a b c : String} (h1 : strLe a b = true) (h2 : strLe b c = true) :
    strLe a c = true :=
  listLe_trans a.data b.data c.data h1 h2

theorem strLt_le_false {a b : String} (h : strLt a b = true) : strLe b a = false :=
  listLt_le_false a.data b.data h

instance : IsTotal LedgerRow rowNameDesc :=
  ⟨fun a b => strLe_total b.name a.name⟩

instance : IsTrans LedgerRow rowNameDesc :=
  ⟨fun _ _ _ hab hbc => strLe_trans hbc hab⟩

instance : IsTotal LedgerRow rowBatchNameLe := by
  constructor
  intro a b
  rcases Nat.lt_trichotomy a.batch b.batch with h | h | h
  · exact Or.inl (Or.inl h)
  · rcases strLe_total a.name b.name with hn | hn
    · exact Or.inl (Or.inr ⟨h, hn⟩)
    · exact Or.inr (Or.inr ⟨h.symm, hn⟩)
  · exact Or.inr (Or.inl h)

instance : IsTrans LedgerRow rowBatchNameLe := by
  constructor
  intro a b c hab hbc
  rcases hab with h1 | ⟨h1, h1n⟩
  · rcases hbc with h2 | ⟨h2, _⟩
    · exact Or.inl (h1.trans h2)
    · exact Or.inl (h2 ▸ h1)
  · rcases hbc with h2 | ⟨h2, h2n⟩
    · exact Or.inl (h1 ▸ h2)
    · exact Or.inr ⟨h1.trans h2, strLe_trans h1n h2n⟩

instance : IsTotal (DirEntry σ ε) entryNameLe :=
  ⟨fun a b => strLe_total a.name b.name⟩

instance : IsTrans (DirEntry σ ε) entryNameLe :=
  ⟨fun _ _ _ hab hbc => strLe_trans hab hbc⟩

/-! Helper lemmas about the transaction bodies. -/

theorem runApplyTx_ok {m : Migrator σ ε} {b : Behaviour ε} {nb : Nat} :
    ∀ (pend : List (Migration σ ε)) (db db' : Db σ) (evs : List Event)
      (names : List String),
      runApplyTx m b nb db pend = (db', evs, names, none) →
      db'.ledger = db.ledger ++ pend.map (fun mg => ⟨mg.name, b.now, nb⟩) ∧
      names = pend.map Migration.name ∧ db'.locked = db.locked
  | [], db, db', evs, names, h => by
    simp only [runApplyTx, Prod.mk.injEq] at h
    obtain ⟨h1, -, h3, -⟩ := h
    subst h1; subst h3
    simp
  | mg :: rest, db, db', evs, names, h => by
    simp only [runApplyTx] at h
    split at h
    · simp at h
    · rename_i u hup
      split at h
      · simp at h
      · split at h
        · simp at h
        · rename_i hlist
          rcases hrec : runApplyTx m b nb
              { ledger := db.ledger ++ [{ name := mg.name, executed_at := b.now, batch := nb }],
                locked := db.locked, user := u }
              rest with ⟨db3, evs3, names3, err⟩
          rw [hrec] at h
          simp only [Prod.mk.injEq] at h
          obtain ⟨h1, -, h3, h4⟩ := h
          subst h1; subst h3; subst h4
          obtain ⟨ih1, ih2, ih3⟩ := runApplyTx_ok rest _ db3 evs3 names3 hrec
          refine ⟨?_, by simp [ih2], by simpa using ih3⟩
          simp only [ih1]
          simp [List.append_assoc]

theorem apply_cases (m : Migrator σ ε) (b : Behaviour ε) (db : Db σ) :
    (∃ e, m.initErr = some e ∧
      m.apply b db = (db, [], .ok ⟨false, some e, []⟩)) ∨
    (m.initErr = none ∧ db.locked = true ∧
      m.apply b db = (db, [],
        .ok ⟨false, some (.lock "Migration lock already held by another process."), []⟩)) ∨
    (m.initErr = none ∧ db.locked = false ∧ b.acquireUpdateFails = true ∧
      m.apply b db = (db, [],
        .ok ⟨false, some (.lock "Failed to acquire migration lock"), []⟩)) ∨
    (m.initErr = none ∧ db.locked = false ∧ b.acquireUpdateFails = false ∧
      pendingOf m db = [] ∧
      m.apply b db = finallyRelease b { db with locked := true } [] ⟨true, none, []⟩) ∨
    (m.initErr = none ∧ db.locked = false ∧ b.acquireUpdateFails = false ∧
      pendingOf m db ≠ [] ∧
      ∃ db2 evs names err,
        runApplyTx m b (getCurrentBatch db + 1) { db with locked := true }
            (pendingOf m db) = (db2, evs, names, err) ∧
        ((err = none ∧
          m.apply b db =
            finallyRelease b db2 (Event.txBegin :: evs) ⟨true, none, names⟩) ∨
         (∃ e, err = some e ∧
          m.apply b db =
            finallyRelease b { db with locked := true } (Event.txBegin :: evs)
              ⟨false, some e, []⟩))) := by
  rcases hI : m.initErr with _ | e
  · by_cases hL : db.locked = true
    · exact Or.inr (Or.inl ⟨rfl, hL, by unfold Migrator.apply; rw [hI]; simp [hL]⟩)
    · replace hL : db.locked = false := by simpa using hL
      by_cases hA : b.acquireUpdateFails = true
      · exact Or.inr (Or.inr (Or.inl ⟨rfl, hL, hA,
          by unfold Migrator.apply; rw [hI]; simp [hL, hA]⟩))
      · replace hA : b.acquireUpdateFails = false := by simpa using hA
        by_cases hP : pendingOf m db = []
        · refine Or.inr (Or.inr (Or.inr (Or.inl ⟨rfl, hL, hA, hP, ?_⟩)))
          unfold Migrator.apply
          rw [hI]
          simp [hL, hA, hP]
        · refine Or.inr (Or.inr (Or.inr (Or.inr ⟨rfl, hL, hA, hP, ?_⟩)))
          rcases hrec : runApplyTx m b (getCurrentBatch db + 1) { db with locked := true }
              (pendingOf m db) with ⟨db2, evs2, names2, err⟩
          refine ⟨db2, evs2, names2, err, rfl, ?_⟩
          rcases err with _ | e
          · refine Or.inl ⟨rfl, ?_⟩
            unfold Migrator.apply
            rw [hI]
            simp only [hL, hA, hP, Bool.false_eq_true, if_false, List.isEmpty_eq_true,
              if_neg hP]
            rw [hrec]
          · refine Or.inr ⟨e, rfl, ?_⟩
            unfold Migrator.apply
            rw [hI]
            simp only [hL, hA, hP, Bool.false_eq_true, if_false, List.isEmpty_eq_true,
              if_neg hP]
            rw [hrec]
  · exact Or.inl ⟨e, rfl, by unfold Migrator.apply; rw [hI]⟩

theorem apply_ok_success {m : Migrator σ ε} {b : Behaviour ε} {db db' : Db σ}
    {evs : List Event} {r : MigrationResult ε}
    (happ : m.apply b db = (db', evs, .ok r)) (hs : r.success = true) :
    m.initErr = none ∧ db.locked = false ∧ b.acquireUpdateFails = false ∧
    b.releaseFails = false ∧ db'.locked = false ∧
    db'.ledger = db.ledger ++
      (pendingOf m db).map (fun mg => ⟨mg.name, b.now, getCurrentBatch db + 1⟩) ∧
    r = ⟨true, none, (pendingOf m db).map Migration.name⟩ := by
  rcases apply_cases m b db with ⟨e, hI, heq⟩ | ⟨hI, hL, heq⟩ | ⟨hI, hL, hA, heq⟩ |
    ⟨hI, hL, hA, hP, heq⟩ | ⟨hI, hL, hA, hP, db2, evs2, names2, err, hrec, hrest⟩
  · rw [happ] at heq
    simp only [Prod.mk.injEq, Except.ok.injEq] at heq
    obtain ⟨-, -, hr⟩ := heq
    subst hr
    simp at hs
  · rw [happ] at heq
    simp only [Prod.mk.injEq, Except.ok.injEq] at heq
    obtain ⟨-, -, hr⟩ := heq
    subst hr
    simp at hs
  · rw [happ] at heq
    simp only [Prod.mk.injEq, Except.ok.injEq] at heq
    obtain ⟨-, -, hr⟩ := heq
    subst hr
    simp at hs
  · unfold finallyRelease at heq
    by_cases hR : b.releaseFails = true
    · rw [if_pos hR, happ] at heq
      simp at heq
    · replace hR : b.releaseFails = false := by simpa using hR
      rw [if_neg (by simp [hR]), happ] at heq
      simp only [Prod.mk.injEq, Except.ok.injEq] at heq
      obtain ⟨hdb, -, hr⟩ := heq
      subst hr
      refine ⟨hI, hL, hA, hR, by simp [hdb], by simp [hdb, hP], by simp [hP]⟩
  · rcases hrest with ⟨herr, heq⟩ | ⟨e, herr, heq⟩
    · subst herr
      unfold finallyRelease at heq
      by_cases hR : b.releaseFails = true
      · rw [if_pos hR, happ] at heq
        simp at heq
      · replace hR : b.releaseFails = false := by simpa using hR
        rw [if_neg (by simp [hR]), happ] at heq
        simp only [Prod.mk.injEq, Except.ok.injEq] at heq
        obtain ⟨hdb, -, hr⟩ := heq
        subst hr
        obtain ⟨ih1, ih2, -⟩ := runApplyTx_ok (pendingOf m db) _ db2 evs2 names2 hrec
        refine ⟨hI, hL, hA, hR, by simp [hdb], ?_, by simp [ih2]⟩
        rw [hdb]
        simpa using ih1
    · subst herr
      unfold finallyRelease at heq
      by_cases hR : b.releaseFails = true
      · rw [if_pos hR, happ] at heq
        simp at heq
      · replace hR : b.releaseFails = false := by simpa using hR
        rw [if_neg (by simp [hR]), happ] at heq
        simp only [Prod.mk.injEq, Except.ok.injEq] at heq
        obtain ⟨-, -, hr⟩ := heq
        subst hr
        simp at hs

theorem apply_fail_applied_nil {m : Migrator σ ε} {b : Behaviour ε} {db db' : Db σ}
    {evs : List Event} {r : MigrationResult ε}
    (happ : m.apply b db = (db', evs, .ok r)) (hs : r.success = false) :
    r.appliedMigrations = [] := by
  rcases apply_cases m b db with ⟨e, hI, heq⟩ | ⟨hI, hL, heq⟩ | ⟨hI, hL, hA, heq⟩ |
    ⟨hI, hL, hA, hP, heq⟩ | ⟨hI, hL, hA, hP, db2, evs2, names2, err, hrec, hrest⟩
  · rw [happ] at heq
    simp only [Prod.mk.injEq, Except.ok.injEq] at heq
    obtain ⟨-, -, hr⟩ := heq
    subst hr
    rfl
  · rw [happ] at heq
    simp only [Prod.mk.injEq, Except.ok.injEq] at heq
    obtain ⟨-, -, hr⟩ := heq
    subst hr
    rfl
  · rw [happ] at heq
    simp only [Prod.mk.injEq, Except.ok.injEq] at heq
    obtain ⟨-, -, hr⟩ := heq
    subst hr
    rfl
  · unfold finallyRelease at heq
    by_cases hR : b.releaseFails = true
    · rw [if_pos hR, happ] at heq
      simp at heq
    · rw [if_neg (by simpa using hR), happ] at heq
      simp only [Prod.mk.injEq, Except.ok.injEq] at heq
      obtain ⟨-, -, hr⟩ := heq
      subst hr
      simp at hs
  · rcases hrest with ⟨herr, heq⟩ | ⟨e, herr, heq⟩
    · subst herr
      unfold finallyRelease at heq
      by_cases hR : b.releaseFails = true
      · rw [if_pos hR, happ] at heq
        simp at heq
      · rw [if_neg (by simpa using hR), happ] at heq
        simp only [Prod.mk.injEq, Except.ok.injEq] at heq
        obtain ⟨-, -, hr⟩ := heq
        subst hr
        simp at hs
    · subst herr
      unfold finallyRelease at heq
      by_cases hR : b.releaseFails = true
      · rw [if_pos hR, happ] at heq
        simp at heq
      · rw [if_neg (by simpa using hR), happ] at heq
        simp only [Prod.mk.injEq, Except.ok.injEq] at heq
        obtain ⟨-, -, hr⟩ := heq
        subst hr
        rfl

theorem apply_fail_db_eq {m : Migrator σ ε} {b : Behaviour ε} {db db' : Db σ}
    {evs : List Event} {r : MigrationResult ε} (hL : db.locked = false)
    (happ : m.apply b db = (db', evs, .ok r)) (hs : r.success = false) :
    db' = db := by
  obtain ⟨l, lk, u⟩ := db
  simp only at hL
  subst hL
  rcases apply_cases m b ⟨l, false, u⟩ with ⟨e, hI, heq⟩ | ⟨hI, hL2, heq⟩ |
    ⟨hI, hL2, hA, heq⟩ | ⟨hI, hL2, hA, hP, heq⟩ |
    ⟨hI, hL2, hA, hP, db2, evs2, names2, err, hrec, hrest⟩
  · rw [happ] at heq
    simp only [Prod.mk.injEq] at heq
    exact heq.1
  · simp at hL2
  · rw [happ] at heq
    simp only [Prod.mk.injEq] at heq
    exact heq.1
  · unfold finallyRelease at heq
    by_cases hR : b.releaseFails = true
    · rw [if_pos hR, happ] at heq
      simp at heq
    · rw [if_neg (by simpa using hR), happ] at heq
      simp only [Prod.mk.injEq, Except.ok.injEq] at heq
      obtain ⟨-, -, hr⟩ := heq
      subst hr
      simp at hs
  · rcases hrest with ⟨herr, heq⟩ | ⟨e, herr, heq⟩
    · subst herr
      unfold finallyRelease at heq
      by_cases hR : b.releaseFails = true
      · rw [if_pos hR, happ] at heq
        simp at heq
      · rw [if_neg (by simpa using hR), happ] at heq
        simp only [Prod.mk.injEq, Except.ok.injEq] at heq
        obtain ⟨-, -, hr⟩ := heq
        subst hr
        simp at hs
    · subst herr
      unfold finallyRelease at heq
      by_cases hR : b.releaseFails = true
      · rw [if_pos hR, happ] at heq
        simp at heq
      · rw [if_neg (by simpa using hR), happ] at heq
        simp only [Prod.mk.injEq, Except.ok.injEq] at heq
        exact heq.1

theorem runApplyTx_names_prefix {m : Migrator σ ε} {b : Behaviour ε} {nb : Nat} :
    ∀ (pend : List (Migration σ ε)) (db db' : Db σ) (evs : List Event)
      (names : List String) (err : Option (Err ε)),
      runApplyTx m b nb db pend = (db', evs, names, err) →
      names = (pend.map Migration.name).take names.length
  | [], db, db', evs, names, err, h => by
    simp only [runApplyTx, Prod.mk.injEq] at h
    obtain ⟨-, -, h3, -⟩ := h
    subst h3
    simp
  | mg :: rest, db, db', evs, names, err, h => by
    simp only [runApplyTx] at h
    split at h
    · simp only [Prod.mk.injEq] at h
      obtain ⟨-, -, h3, -⟩ := h
      subst h3
      simp
    · rename_i u hup
      split at h
      · simp only [Prod.mk.injEq] at h
        obtain ⟨-, -, h3, -⟩ := h
        subst h3
        simp
      · split at h
        · simp only [Prod.mk.injEq] at h
          obtain ⟨-, -, h3, -⟩ := h
          subst h3
          simp
        · rename_i hlist
          rcases hrec : runApplyTx m b nb
              { ledger := db.ledger ++ [{ name := mg.name, executed_at := b.now, batch := nb }],
                locked := db.locked, user := u }
              rest with ⟨db3, evs3, names3, err3⟩
          rw [hrec] at h
          simp only [Prod.mk.injEq] at h
          obtain ⟨-, -, h3, -⟩ := h
          subst h3
          have ih := runApplyTx_names_prefix rest _ db3 evs3 names3 err3 hrec
          simp only [List.map_cons, List.length_cons, List.take_succ_cons]
          rw [← ih]

theorem rollback_cases (m : Migrator σ ε) (b : Behaviour ε) (db : Db σ) :
    (∃ e, m.initErr = some e ∧
      m.rollback b db = (db, [], .ok ⟨false, some e, []⟩)) ∨
    (m.initErr = none ∧ db.locked = true ∧
      m.rollback b db = (db, [],
        .ok ⟨false, some (.lock "Migration lock already held by another process."), []⟩)) ∨
    (m.initErr = none ∧ db.locked = false ∧ b.acquireUpdateFails = true ∧
      m.rollback b db = (db, [],
        .ok ⟨false, some (.lock "Failed to acquire migration lock"), []⟩)) ∨
    (m.initErr = none ∧ db.locked = false ∧ b.acquireUpdateFails = false ∧
      getCurrentBatch db = 0 ∧
      m.rollback b db = finallyRelease b { db with locked := true } [] ⟨true, none, []⟩) ∨
    (m.initErr = none ∧ db.locked = false ∧ b.acquireUpdateFails = false ∧
      getCurrentBatch db ≠ 0 ∧ lastBatchRows db = [] ∧
      m.rollback b db = finallyRelease b { db with locked := true } [] ⟨true, none, []⟩) ∨
    (m.initErr = none ∧ db.locked = false ∧ b.acquireUpdateFails = false ∧
      getCurrentBatch db ≠ 0 ∧ lastBatchRows db ≠ [] ∧
      ∃ db2 evs names err,
        runRollbackTx m b (getCurrentBatch db) { db with locked := true }
            (lastBatchRows db) = (db2, evs, names, err) ∧
        ((err = none ∧
          m.rollback b db =
            finallyRelease b db2 (Event.txBegin :: evs) ⟨true, none, names⟩) ∨
         (∃ e, err = some e ∧
          m.rollback b db =
            finallyRelease b { db with locked := true } (Event.txBegin :: evs)
              ⟨false, some (wrapRollbackErr e), names⟩))) := by
  rcases hI : m.initErr with _ | e
  · by_cases hL : db.locked = true
    · exact Or.inr (Or.inl ⟨rfl, hL, by unfold Migrator.rollback; rw [hI]; simp [hL]⟩)
    · replace hL : db.locked = false := by simpa using hL
      by_cases hA : b.acquireUpdateFails = true
      · exact Or.inr (Or.inr (Or.inl ⟨rfl, hL, hA,
          by unfold Migrator.rollback; rw [hI]; simp [hL, hA]⟩))
      · replace hA : b.acquireUpdateFails = false := by simpa using hA
        by_cases hC : getCurrentBatch db = 0
        · refine Or.inr (Or.inr (Or.inr (Or.inl ⟨rfl, hL, hA, hC, ?_⟩)))
          unfold Migrator.rollback
          rw [hI]
          simp [hL, hA, hC]
        · by_cases hRows : lastBatchRows db = []
          · refine Or.inr (Or.inr (Or.inr (Or.inr (Or.inl ⟨rfl, hL, hA, hC, hRows, ?_⟩))))
            unfold Migrator.rollback
            rw [hI]
            simp [hL, hA, hC, hRows]
          · refine Or.inr (Or.inr (Or.inr (Or.inr (Or.inr
              ⟨rfl, hL, hA, hC, hRows, ?_⟩))))
            rcases hrec : runRollbackTx m b (getCurrentBatch db) { db with locked := true }
                (lastBatchRows db) with ⟨db2, evs2, names2, err⟩
            refine ⟨db2, evs2, names2, err, rfl, ?_⟩
            rcases err with _ | e
            · refine Or.inl ⟨rfl, ?_⟩
              unfold Migrator.rollback
              rw [hI]
              simp only [hL, hA, hC, Bool.false_eq_true, if_false, if_neg hC,
                List.isEmpty_eq_true, if_neg hRows]
              rw [hrec]
            · refine Or.inr ⟨e, rfl, ?_⟩
              unfold Migrator.rollback
              rw [hI]
              simp only [hL, hA, hC, Bool.false_eq_true, if_false, if_neg hC,
                List.isEmpty_eq_true, if_neg hRows]
              rw [hrec]
  · exact Or.inl ⟨e, rfl, by unfold Migrator.rollback; rw [hI]⟩

theorem runRollbackTx_ok {m : Migrator σ ε} {b : Behaviour ε} {batch : Nat} :
    ∀ (rows : List LedgerRow) (db db' : Db σ) (evs : List Event) (names : List String),
      runRollbackTx m b batch db rows = (db', evs, names, none) →
      db'.ledger = db.ledger.filter
        (fun x => rows.all (fun q => !decide (x.name = q.name ∧ x.batch = batch))) ∧
      names = rows.map LedgerRow.name ∧ db'.locked = db.locked
  | [], db, db', evs, names, h => by
    simp only [runRollbackTx, Prod.mk.injEq] at h
    obtain ⟨h1, -, h3, -⟩ := h
    subst h1; subst h3
    simp
  | row :: rest, db, db', evs, names, h => by
    simp only [runRollbackTx] at h
    split at h
    · simp at h
    · rename_i mg hfind
      have hfs := List.find?_some hfind
      have hname : mg.name = row.name := by simpa using hfs
      split at h
      · simp at h
      · rename_i u hdown
        split at h
        · simp at h
        · rename_i hdel
          split at h
          · simp at h
          · rename_i hl
            rcases hrec : runRollbackTx m b batch
                { ledger := List.filter
                    (fun r => !decide (r.name = mg.name ∧ r.batch = batch)) db.ledger,
                  locked := db.locked, user := u }
                rest with ⟨db3, evs3, names3, err⟩
            rw [hrec] at h
            simp only [Prod.mk.injEq] at h
            obtain ⟨h1, -, h3, h4⟩ := h
            subst h1; subst h3; subst h4
            obtain ⟨ih1, ih2, ih3⟩ := runRollbackTx_ok rest _ db3 evs3 names3 hrec
            refine ⟨?_, by simp [ih2, hname], by simpa using ih3⟩
            rw [ih1]
            simp only [List.filter_filter]
            apply List.filter_congr
            intro x hx
            rw [List.all_cons, hname, Bool.and_comm]

theorem runRollbackTx_names_take {m : Migrator σ ε} {b : Behaviour ε} {batch : Nat} :
    ∀ (rows : List LedgerRow) (db db' : Db σ) (evs : List Event)
      (names : List String) (err : Option (Err ε)),
      runRollbackTx m b batch db rows = (db', evs, names, err) →
      names = (rows.map LedgerRow.name).take names.length
  | [], db, db', evs, names, err, h => by
    simp only [runRollbackTx, Prod.mk.injEq] at h
    obtain ⟨-, -, h3, -⟩ := h
    subst h3
    simp
  | row :: rest, db, db', evs, names, err, h => by
    simp only [runRollbackTx] at h
    split at h
    · simp only [Prod.mk.injEq] at h
      obtain ⟨-, -, h3, -⟩ := h
      subst h3
      simp
    · rename_i mg hfind
      have hfs := List.find?_some hfind
      have hname : mg.name = row.name := by simpa using hfs
      split at h
      · simp only [Prod.mk.injEq] at h
        obtain ⟨-, -, h3, -⟩ := h
        subst h3
        simp
      · rename_i u hdown
        split at h
        · simp only [Prod.mk.injEq] at h
          obtain ⟨-, -, h3, -⟩ := h
          subst h3
          simp
        · split at h
          · simp only [Prod.mk.injEq] at h
            obtain ⟨-, -, h3, -⟩ := h
            subst h3
            simp [hname]
          · rename_i hl
            rcases hrec : runRollbackTx m b batch
                { ledger := List.filter
                    (fun r => !decide (r.name = mg.name ∧ r.batch = batch)) db.ledger,
                  locked := db.locked, user := u }
                rest with ⟨db3, evs3, names3, err3⟩
            rw [hrec] at h
            simp only [Prod.mk.injEq] at h
            obtain ⟨-, -, h3, -⟩ := h
            subst h3
            have ih := runRollbackTx_names_take rest _ db3 evs3 names3 err3 hrec
            simp only [List.map_cons, List.length_cons, List.take_succ_cons, hname]
            rw [← ih]

theorem runRollbackTx_missing {m : Migrator σ ε} {b : Behaviour ε} {batch : Nat}
    (hdown : ∀ mg ∈ m.migrations, ∀ s, ∃ u, mg.down s = Except.ok u)
    (hdel : ∀ nm, b.deleteFails nm = false)
    (hlist : ∀ nm k, m.onRollback nm k = Except.ok ()) :
    ∀ (rows : List LedgerRow) (db : Db σ),
      (∃ q ∈ rows, q.name ∉ m.migrations.map Migration.name) →
      ∃ nm, nm ∈ rows.map LedgerRow.name ∧ nm ∉ m.migrations.map Migration.name ∧
        (runRollbackTx m b batch db rows).2.2.2 = some (.file (notFoundMsg nm))
  | [], db, hmiss => by
    obtain ⟨q, hq, -⟩ := hmiss
    exact absurd hq (List.not_mem_nil q)
  | row :: rest, db, hmiss => by
    rcases hfind : m.migrations.find? (fun mg => decide (mg.name = row.name)) with _ | mg
    · refine ⟨row.name, by simp, ?_, ?_⟩
      · intro hmem
        obtain ⟨mg, hmg, hmgname⟩ := List.mem_map.mp hmem
        have := List.find?_eq_none.mp hfind mg hmg
        simp [hmgname] at this
      · simp [runRollbackTx, hfind]
    · have hfs := List.find?_some hfind
      have hname : mg.name = row.name := by simpa using hfs
      have hmem : mg ∈ m.migrations := List.mem_of_find?_eq_some hfind
      have hrowmem : row.name ∈ m.migrations.map Migration.name :=
        List.mem_map.mpr ⟨mg, hmem, hname⟩
      obtain ⟨q, hq, hqmiss⟩ := hmiss
      have hqrest : q ∈ rest := by
        rcases List.mem_cons.mp hq with h | h
        · exact absurd hrowmem (h ▸ hqmiss)
        · exact h
      obtain ⟨u, hu⟩ := hdown mg hmem db.user
      obtain ⟨nm, hnm1, hnm2, hnm3⟩ := runRollbackTx_missing hdown hdel hlist rest
        { ledger := List.filter
            (fun r => !decide (r.name = mg.name ∧ r.batch = batch)) db.ledger,
          locked := db.locked, user := u }
        ⟨q, hqrest, hqmiss⟩
      refine ⟨nm, by simp [hnm1], hnm2, ?_⟩
      simp only [runRollbackTx, hfind, hu, hdel mg.name, Bool.false_eq_true, if_false,
        hlist mg.name batch]
      exact hnm3

theorem orderedInsert_eq_append {α : Type} (r : α → α → Prop) [DecidableRel r] (a : α) :
    ∀ (l : List α), (∀ x ∈ l, ¬ r a x) → List.orderedInsert r a l = l ++ [a]
  | [], _ => rfl
  | c :: t, h => by
    simp only [List.orderedInsert]
    rw [if_neg (h c (by simp)), orderedInsert_eq_append r a t (fun x hx => h x (by simp [hx]))]
    simp

theorem insertionSort_desc_eq_reverse :
    ∀ (l : List LedgerRow),
      (l.map LedgerRow.name).Pairwise (fun x y => strLt x y = true) →
      List.insertionSort rowNameDesc l = l.reverse
  | [], _ => rfl
  | a :: t, h => by
    simp only [List.map_cons, List.pairwise_cons] at h
    obtain ⟨ha, ht⟩ := h
    simp only [List.insertionSort]
    rw [insertionSort_desc_eq_reverse t ht,
      orderedInsert_eq_append rowNameDesc a t.reverse ?_]
    · simp
    · intro x hx
      have hx' : x ∈ t := by simpa using hx
      have hlt : strLt a.name x.name = true :=
        ha x.name (List.mem_map.mpr ⟨x, hx', rfl⟩)
      intro hcon
      have hfalse : strLe x.name a.name = false := strLt_le_false hlt
      unfold rowNameDesc at hcon
      rw [hfalse] at hcon
      exact Bool.false_ne_true hcon

theorem le_foldr_max : ∀ (l : List Nat) (x : Nat), x ∈ l → x ≤ l.foldr max 0
  | [], x, hx => absurd hx (List.not_mem_nil x)
  | a :: t, x, hx => by
    simp only [List.foldr_cons]
    rcases List.mem_cons.mp hx with h | h
    · subst h; exact le_max_left _ _
    · exact le_trans (le_foldr_max t x h) (le_max_right _ _)

theorem foldr_max_mem : ∀ (l : List Nat), l ≠ [] → l.foldr max 0 ∈ l
  | [], h => absurd rfl h
  | [a], _ => by simp
  | a :: c :: t, _ => by
    have hstep : List.foldr max 0 (a :: c :: t) = max a (List.foldr max 0 (c :: t)) := rfl
    rw [hstep]
    rcases le_total a (List.foldr max 0 (c :: t)) with h | h
    · rw [max_eq_right h]
      exact List.mem_cons_of_mem _ (foldr_max_mem (c :: t) (by simp))
    · rw [max_eq_left h]
      exact List.mem_cons_self _ _

theorem mem_pendingOf {m : Migrator σ ε} {db : Db σ} {mg : Migration σ ε} :
    mg ∈ pendingOf m db ↔ mg ∈ m.migrations ∧ mg.name ∉ ledgerNames db := by
  simp [pendingOf, List.mem_filter]

theorem loadFiles_ok_names :
    ∀ (l : List (DirEntry σ ε)) (cat : List (Migration σ ε)),
      loadFiles l = .ok cat → cat.map Migration.name = l.map DirEntry.name
  | [], cat, h => by
    simp only [loadFiles, Except.ok.injEq] at h
    subst h
    rfl
  | e :: rest, cat, h => by
    simp only [loadFiles] at h
    split at h
    · simp at h
    · split at h
      · rename_i u d
        split at h
        · simp at h
        · rename_i l2 hl2
          simp only [Except.ok.injEq] at h
          subst h
          simp only [List.map_cons, List.cons.injEq]
          exact ⟨trivial, loadFiles_ok_names rest l2 hl2⟩
      · simp at h

/-! Theorems settling the claims. -/

/-- C1: Atomic batch.  Under the preamble that apply() reaches the batch
transaction (init succeeds, the lock is free and its updates succeed), if
the run fails then the ledger is exactly what it was and carries no row for
any pending unit, and if it succeeds then every pending unit is recorded
with batch number currentBatch + 1. -/
theorem c1_apply_atomic_batch (m : Migrator σ ε) (b : Behaviour ε) (db db' : Db σ)
    (evs : List Event) (r : MigrationResult ε)
    (hinit : m.initErr = none) (hlock : db.locked = false)
    (hacq : b.acquireUpdateFails = false) (hrel : b.releaseFails = false)
    (happ : m.apply b db = (db', evs, .ok r)) :
    (r.success = false →
      db'.ledger = db.ledger ∧
      ∀ mg ∈ pendingOf m db, ∀ row ∈ db'.ledger, row.name ≠ mg.name) ∧
    (r.success = true → ∀ mg ∈ pendingOf m db,
      ∃ row ∈ db'.ledger, row.name = mg.name ∧ row.batch = getCurrentBatch db + 1) := by
  constructor
  · intro hs
    have hdb := apply_fail_db_eq hlock happ hs
    rw [hdb]
    refine ⟨rfl, ?_⟩
    intro mg hmg row hrow heq
    have hnot : mg.name ∉ ledgerNames db := (mem_pendingOf.mp hmg).2
    exact hnot (heq ▸ List.mem_map.mpr ⟨row, hrow, rfl⟩)
  · intro hs
    obtain ⟨-, -, -, -, -, hledger, -⟩ := apply_ok_success happ hs
    intro mg hmg
    refine ⟨⟨mg.name, b.now, getCurrentBatch db + 1⟩, ?_, rfl, rfl⟩
    rw [hledger]
    exact List.mem_append_right _ (List.mem_map.mpr ⟨mg, hmg, rfl⟩)

/-- Witness for C1 at a concrete successful two-unit batch. -/
theorem c1_apply_atomic_batch_witness :
    (c1R.success = false → c1Db.ledger = emptyDb.ledger ∧
      ∀ mg ∈ pendingOf migAB emptyDb, ∀ row ∈ c1Db.ledger, row.name ≠ mg.name) ∧
    (c1R.success = true → ∀ mg ∈ pendingOf migAB emptyDb,
      ∃ row ∈ c1Db.ledger, row.name = mg.name ∧
        row.batch = getCurrentBatch emptyDb + 1) :=
  c1_apply_atomic_batch migAB cleanB emptyDb c1Db c1Evs c1R rfl rfl rfl rfl rfl

/-- C2: Exactly-once application.  After a successful apply(), an
immediately following apply() on the unchanged catalog and ledger returns
success with an empty appliedMigrations list, opens no transaction (no
events, in particular no txBegin), and leaves the database unchanged. -/
theorem c2_apply_exactly_once (m : Migrator σ ε) (b : Behaviour ε) (db db1 : Db σ)
    (evs1 : List Event) (r1 : MigrationResult ε)
    (h1 : m.apply b db = (db1, evs1, .ok r1)) (hs : r1.success = true) :
    m.apply b db1 = (db1, [], .ok ⟨true, none, []⟩) := by
  obtain ⟨hI, hL, hA, hR, hLock1, hLedger1, -⟩ := apply_ok_success h1 hs
  have hpend : pendingOf m db1 = [] := by
    unfold pendingOf
    rw [List.filter_eq_nil_iff]
    intro mg hmg
    simp only [decide_eq_true_eq, Decidable.not_not]
    unfold ledgerNames
    rw [hLedger1, List.map_append]
    by_cases hmem : mg.name ∈ db.ledger.map LedgerRow.name
    · exact List.mem_append_left _ hmem
    · refine List.mem_append_right _ ?_
      rw [List.map_map]
      exact List.mem_map.mpr ⟨mg, mem_pendingOf.mpr ⟨hmg, hmem⟩, rfl⟩
  obtain ⟨l1, lk1, u1⟩ := db1
  simp only at hLock1
  subst hLock1
  rcases apply_cases m b ⟨l1, false, u1⟩ with ⟨e, hI2, -⟩ | ⟨-, hL2, -⟩ |
    ⟨-, -, hA2, -⟩ | ⟨-, -, -, -, heq⟩ | ⟨-, -, -, hP2, -⟩
  · rw [hI2] at hI
    cases hI
  · cases hL2
  · rw [hA2] at hA
    cases hA
  · rw [heq]
    unfold finallyRelease
    rw [if_neg (by simp [hR])]
  · exact absurd hpend hP2

/-- Witness for C2: a successful concrete apply followed by a no-op one. -/
theorem c2_apply_exactly_once_witness :
    migAB.apply cleanB c1Db = (c1Db, [], .ok ⟨true, none, []⟩) :=
  c2_apply_exactly_once migAB cleanB emptyDb c1Db c1Evs c1R rfl rfl

/-- C3 counterexample: when the lock-release UPDATE in the finally clause
throws, apply() and rollback() propagate a MigrationLockError to the caller
instead of returning a Result object, refuting the claim that these two
operations never raise under every behaviour of the database calls. -/
theorem c3_release_failure_raises :
    (migEmpty.apply relFailB emptyDb).2.2 =
      .error (.lock "Failed to release migration lock") ∧
    (migEmpty.rollback relFailB emptyDb).2.2 =
      .error (.lock "Failed to release migration lock") :=
  ⟨rfl, rfl⟩

/-- C3 amended: apply() and rollback() return a Result object for every
catalog, ledger and lock state and every behaviour of the migration
operations and database calls, provided the lock-release UPDATE succeeds;
only a failing lock release propagates an exception. -/
theorem c3_no_raise_when_release_succeeds (m : Migrator σ ε) (b : Behaviour ε)
    (db : Db σ) (hrel : b.releaseFails = false) :
    (∃ res, (m.apply b db).2.2 = .ok res) ∧
    (∃ res, (m.rollback b db).2.2 = .ok res) := by
  constructor
  · rcases apply_cases m b db with ⟨e, -, heq⟩ | ⟨-, -, heq⟩ | ⟨-, -, -, heq⟩ |
      ⟨-, -, -, -, heq⟩ | ⟨-, -, -, -, db2, evs2, names2, err, -, hrest⟩
    · exact ⟨_, by rw [heq]⟩
    · exact ⟨_, by rw [heq]⟩
    · exact ⟨_, by rw [heq]⟩
    · exact ⟨_, by rw [heq]; unfold finallyRelease; rw [if_neg (by simp [hrel])]⟩
    · rcases hrest with ⟨-, heq⟩ | ⟨e, -, heq⟩
      · exact ⟨_, by rw [heq]; unfold finallyRelease; rw [if_neg (by simp [hrel])]⟩
      · exact ⟨_, by rw [heq]; unfold finallyRelease; rw [if_neg (by simp [hrel])]⟩
  · rcases rollback_cases m b db with ⟨e, -, heq⟩ | ⟨-, -, heq⟩ | ⟨-, -, -, heq⟩ |
      ⟨-, -, -, -, heq⟩ | ⟨-, -, -, -, -, heq⟩ |
      ⟨-, -, -, -, -, db2, evs2, names2, err, -, hrest⟩
    · exact ⟨_, by rw [heq]⟩
    · exact ⟨_, by rw [heq]⟩
    · exact ⟨_, by rw [heq]⟩
    · exact ⟨_, by rw [heq]; unfold finallyRelease; rw [if_neg (by simp [hrel])]⟩
    · exact ⟨_, by rw [heq]; unfold finallyRelease; rw [if_neg (by simp [hrel])]⟩
    · rcases hrest with ⟨-, heq⟩ | ⟨e, -, heq⟩
      · exact ⟨_, by rw [heq]; unfold finallyRelease; rw [if_neg (by simp [hrel])]⟩
      · exact ⟨_, by rw [heq]; unfold finallyRelease; rw [if_neg (by simp [hrel])]⟩

/-- Witness for the amended C3 on a concrete run. -/
theorem c3_no_raise_when_release_succeeds_witness :
    (∃ res, (migAB.apply cleanB emptyDb).2.2 = .ok res) ∧
    (∃ res, (migAB.rollback cleanB emptyDb).2.2 = .ok res) :=
  c3_no_raise_when_release_succeeds migAB cleanB emptyDb rfl

/-- C4 counterexample: when the lock is already held by another process,
apply() fails without touching the lock row, which therefore still reads
locked = 1 afterwards, refuting the claim that the lock row reads 0 after
every apply() call including acquisition failure. -/
theorem c4_lock_held_counterexample :
    (migAB.apply cleanB lockedDb).1.locked = true ∧
    (migAB.apply cleanB lockedDb).2.2 =
      .ok ⟨false, some (.lock "Migration lock already held by another process."), []⟩ :=
  ⟨rfl, rfl⟩

/-- C4 amended: after any apply() call that starts with the lock free and
whose lock-release UPDATE succeeds, the lock row reads locked = 0 whether
the call succeeded or failed. -/
theorem c4_lock_released (m : Migrator σ ε) (b : Behaviour ε) (db : Db σ)
    (hlock : db.locked = false) (hrel : b.releaseFails = false) :
    (m.apply b db).1.locked = false := by
  rcases apply_cases m b db with ⟨e, -, heq⟩ | ⟨-, hL, -⟩ | ⟨-, -, -, heq⟩ |
    ⟨-, -, -, -, heq⟩ | ⟨-, -, -, -, db2, evs2, names2, err, -, hrest⟩
  · rw [heq]; exact hlock
  · rw [hlock] at hL; cases hL
  · rw [heq]; exact hlock
  · rw [heq]; unfold finallyRelease; rw [if_neg (by simp [hrel])]
  · rcases hrest with ⟨-, heq⟩ | ⟨e, -, heq⟩ <;>
      · rw [heq]; unfold finallyRelease; rw [if_neg (by simp [hrel])]

/-- Witness for the amended C4 on a concrete successful run. -/
theorem c4_lock_released_witness : (migAB.apply cleanB emptyDb).1.locked = false :=
  c4_lock_released migAB cleanB emptyDb rfl rfl

/-- C8 counterexample: an applied-event listener that throws aborts the
batch transaction: with it apply() fails and the ledger stays empty,
whereas the identical catalog with a normal listener succeeds and records
the unit, refuting the claim that a failing observer never affects the
outcome. -/
theorem c8_throwing_listener_counterexample :
    (migABadListener.apply cleanB emptyDb).2.2 =
      .ok ⟨false, some (.execution (execMsg "001_a.ts") (.user ())), []⟩ ∧
    (migOnlyA.apply cleanB emptyDb).2.2 = .ok ⟨true, none, ["001_a.ts"]⟩ ∧
    (migABadListener.apply cleanB emptyDb).1 = emptyDb ∧
    (migOnlyA.apply cleanB emptyDb).1.ledger =
      [⟨"001_a.ts", "2025-01-01T00:00:00.000Z", 1⟩] :=
  ⟨rfl, rfl, rfl, rfl⟩

/-- C8 amended: listeners that return normally never affect the outcome of
apply() or rollback(): any two such listener pairs produce identical final
database states, events and Results; a listener that throws, by contrast,
aborts the batch transaction (see the counterexample). -/
theorem c8_ok_listener_no_effect (m : Migrator σ ε) (b : Behaviour ε) (db : Db σ)
    (f g fr gr : String → Nat → Except ε Unit)
    (hf : ∀ n k, f n k = .ok ()) (hg : ∀ n k, g n k = .ok ())
    (hfr : ∀ n k, fr n k = .ok ()) (hgr : ∀ n k, gr n k = .ok ()) :
    ({ m with onApplied := f, onRollback := fr } : Migrator σ ε).apply b db =
      ({ m with onApplied := g, onRollback := gr }).apply b db ∧
    ({ m with onApplied := f, onRollback := fr } : Migrator σ ε).rollback b db =
      ({ m with onApplied := g, onRollback := gr }).rollback b db := by
  have h1 : f = g := funext fun n => funext fun k => (hf n k).trans (hg n k).symm
  have h2 : fr = gr := funext fun n => funext fun k => (hfr n k).trans (hgr n k).symm
  rw [h1, h2]
  exact ⟨rfl, rfl⟩

/-- Witness for the amended C8 at a concrete catalog and two differently
written non-throwing listeners. -/
theorem c8_ok_listener_no_effect_witness :
    ({ migOnlyA with onApplied := branchListener, onRollback := okListener } :
        Migrator Nat Unit).apply cleanB emptyDb =
      ({ migOnlyA with onApplied := okListener, onRollback := branchListener }).apply
        cleanB emptyDb ∧
    ({ migOnlyA with onApplied := branchListener, onRollback := okListener } :
        Migrator Nat Unit).rollback cleanB emptyDb =
      ({ migOnlyA with onApplied := okListener, onRollback := branchListener }).rollback
        cleanB emptyDb :=
  c8_ok_listener_no_effect migOnlyA cleanB emptyDb branchListener okListener okListener
    branchListener
    (fun _ k => by unfold branchListener; split <;> rfl)
    (fun _ _ => rfl) (fun _ _ => rfl)
    (fun _ k => by unfold branchListener; split <;> rfl)

/-- C10: a rollback() that fails after some units were processed returns
success = false with appliedMigrations holding exactly the processed names,
a prefix of the most recent batch in descending name order, even though the
transaction abort restored the database, so every listed name is still
recorded in the ledger; a failed apply() by contrast always returns an
empty appliedMigrations list. -/
theorem c10_rollback_partial_applied_list (m : Migrator σ ε) (b : Behaviour ε)
    (db db' : Db σ) (evs : List Event) (r : MigrationResult ε)
    (h : m.rollback b db = (db', evs, .ok r)) (hf : r.success = false)
    (hne : r.appliedMigrations ≠ []) :
    db' = db ∧
    r.appliedMigrations =
      ((lastBatchRows db).map LedgerRow.name).take r.appliedMigrations.length ∧
    r.appliedMigrations.Pairwise (fun x y => strLe y x = true) ∧
    (∀ nm ∈ r.appliedMigrations, nm ∈ ledgerNames db') ∧
    (∀ (m2 : Migrator σ ε) (b2 : Behaviour ε) (db2 db2' : Db σ)
        (evs2 : List Event) (r2 : MigrationResult ε),
      m2.apply b2 db2 = (db2', evs2, .ok r2) → r2.success = false →
      r2.appliedMigrations = []) := by
  obtain ⟨l, lk, u⟩ := db
  rcases rollback_cases m b ⟨l, lk, u⟩ with ⟨e, -, heq⟩ | ⟨-, -, heq⟩ |
    ⟨-, -, -, heq⟩ | ⟨-, -, -, -, heq⟩ | ⟨-, -, -, -, -, heq⟩ |
    ⟨-, hL, -, -, -, dbt, evst, namest, err, hrec, hrest⟩
  · rw [h] at heq
    simp only [Prod.mk.injEq, Except.ok.injEq] at heq
    obtain ⟨-, -, hr⟩ := heq
    subst hr
    simp at hne
  · rw [h] at heq
    simp only [Prod.mk.injEq, Except.ok.injEq] at heq
    obtain ⟨-, -, hr⟩ := heq
    subst hr
    simp at hne
  · rw [h] at heq
    simp only [Prod.mk.injEq, Except.ok.injEq] at heq
    obtain ⟨-, -, hr⟩ := heq
    subst hr
    simp at hne
  · unfold finallyRelease at heq
    by_cases hR : b.releaseFails = true
    · rw [if_pos hR, h] at heq
      simp at heq
    · rw [if_neg (by simpa using hR), h] at heq
      simp only [Prod.mk.injEq, Except.ok.injEq] at heq
      obtain ⟨-, -, hr⟩ := heq
      subst hr
      simp at hf
  · unfold finallyRelease at heq
    by_cases hR : b.releaseFails = true
    · rw [if_pos hR, h] at heq
      simp at heq
    · rw [if_neg (by simpa using hR), h] at heq
      simp only [Prod.mk.injEq, Except.ok.injEq] at heq
      obtain ⟨-, -, hr⟩ := heq
      subst hr
      simp at hf
  · simp only at hL
    subst hL
    rcases hrest with ⟨herr, heq⟩ | ⟨e, herr, heq⟩
    · subst herr
      unfold finallyRelease at heq
      by_cases hR : b.releaseFails = true
      · rw [if_pos hR, h] at heq
        simp at heq
      · rw [if_neg (by simpa using hR), h] at heq
        simp only [Prod.mk.injEq, Except.ok.injEq] at heq
        obtain ⟨-, -, hr⟩ := heq
        subst hr
        simp at hf
    · subst herr
      unfold finallyRelease at heq
      by_cases hR : b.releaseFails = true
      · rw [if_pos hR, h] at heq
        simp at heq
      · rw [if_neg (by simpa using hR), h] at heq
        simp only [Prod.mk.injEq, Except.ok.injEq] at heq
        obtain ⟨hdb, -, hr⟩ := heq
        subst hr
        have htake := runRollbackTx_names_take (lastBatchRows ⟨l, false, u⟩) _
          dbt evst namest (some e) hrec
        have hsorted : (lastBatchRows (⟨l, false, u⟩ : Db σ)).Pairwise rowNameDesc :=
          List.sorted_insertionSort rowNameDesc _
        have hsortedNames :
            ((lastBatchRows (⟨l, false, u⟩ : Db σ)).map LedgerRow.name).Pairwise
              (fun x y => strLe y x = true) :=
          List.pairwise_map.mpr hsorted
        refine ⟨hdb, ?_, ?_, ?_, ?_⟩
        · simpa using htake
        · have : ((((lastBatchRows (⟨l, false, u⟩ : Db σ)).map LedgerRow.name)).take
              namest.length).Pairwise (fun x y => strLe y x = true) :=
            hsortedNames.sublist (List.take_sublist _ _)
          simpa [← htake] using this
        · intro nm hnm
          simp only at hnm
          rw [htake] at hnm
          have hnm2 := List.take_subset _ _ hnm
          obtain ⟨row, hrow, hrowname⟩ := List.mem_map.mp hnm2
          have hrow2 : row ∈ (⟨l, false, u⟩ : Db σ).ledger.filter
              (fun q => decide (q.batch = getCurrentBatch (⟨l, false, u⟩ : Db σ))) :=
            (List.perm_insertionSort rowNameDesc _).subset hrow
          have hrow3 : row ∈ l := List.mem_of_mem_filter hrow2
          rw [hdb]
          exact hrowname ▸ List.mem_map.mpr ⟨row, hrow3, rfl⟩
        · intro m2 b2 db2 db2' evs2 r2 h2 hf2
          exact apply_fail_applied_nil h2 hf2

/-- Witness for C10: rollback of a two-unit batch where the second revert
throws; the first unit's name is reported even though its row was restored. -/
theorem c10_rollback_partial_applied_list_witness :
    (migADownFailB.rollback cleanB dbTwoRows).1 = dbTwoRows ∧
    (migADownFailB.rollback cleanB dbTwoRows).2.2 =
      .ok ⟨false, some (.execution (execMsg "001_a.ts") (.user ())), ["002_b.ts"]⟩ ∧
    ("002_b.ts" ∈ ledgerNames (migADownFailB.rollback cleanB dbTwoRows).1) := by
  refine ⟨?_, rfl, ?_⟩
  · exact (c10_rollback_partial_applied_list migADownFailB cleanB dbTwoRows _ _ _
      rfl rfl (by decide)).1
  · exact (c10_rollback_partial_applied_list migADownFailB cleanB dbTwoRows _ _ _
      rfl rfl (by decide)).2.2.2.1 "002_b.ts" (by decide)

/-- C6 counterexample: when the most recent batch names a migration absent
from the catalog, rollback() fails, but the error carried in its Result is
a MigrationExecutionError with message Rollback failed that wraps the
MigrationFileError; it is not itself a file error as the claim states. -/
theorem c6_wrapped_file_error_counterexample :
    (migEmpty.rollback cleanB dbGhost1).2.2 =
      .ok ⟨false,
        some (.execution "Rollback failed" (.file (notFoundMsg "001_x.ts"))), []⟩ ∧
    Err.isFileErr
      ((Err.execution "Rollback failed" (.file (notFoundMsg "001_x.ts"))) : Err Unit) =
      false :=
  ⟨rfl, rfl⟩

/-- C6 amended: if the most recent batch contains a name with no matching
catalog unit then rollback() fails (given that the preceding backward
operations, deletes and notifications succeed), and the error carried in
its Result is a MigrationExecutionError with message Rollback failed
wrapping a MigrationFileError that names a missing migration. -/
theorem c6_rollback_missing_unit (m : Migrator σ ε) (b : Behaviour ε)
    (db db' : Db σ) (evs : List Event) (r : MigrationResult ε)
    (hinit : m.initErr = none) (hlock : db.locked = false)
    (hacq : b.acquireUpdateFails = false) (hrel : b.releaseFails = false)
    (hdown : ∀ mg ∈ m.migrations, ∀ s, ∃ u, mg.down s = Except.ok u)
    (hdel : ∀ nm, b.deleteFails nm = false)
    (hlist : ∀ nm k, m.onRollback nm k = Except.ok ())
    (hcur : getCurrentBatch db ≠ 0)
    (hmiss : ∃ row ∈ db.ledger, row.batch = getCurrentBatch db ∧
      row.name ∉ m.migrations.map Migration.name)
    (h : m.rollback b db = (db', evs, .ok r)) :
    r.success = false ∧
    ∃ nm, nm ∈ (lastBatchRows db).map LedgerRow.name ∧
      nm ∉ m.migrations.map Migration.name ∧
      r.error = some (.execution "Rollback failed" (.file (notFoundMsg nm))) := by
  obtain ⟨row, hrowmem, hrowbatch, hrowmiss⟩ := hmiss
  have hrowfil : row ∈ db.ledger.filter
      (fun q => decide (q.batch = getCurrentBatch db)) :=
    List.mem_filter.mpr ⟨hrowmem, by simp [hrowbatch]⟩
  have hrowlast : row ∈ lastBatchRows db :=
    (List.perm_insertionSort rowNameDesc _).mem_iff.mpr hrowfil
  have hne : lastBatchRows db ≠ [] := by
    intro h0
    rw [h0] at hrowlast
    exact List.not_mem_nil _ hrowlast
  rcases rollback_cases m b db with ⟨e, hI2, -⟩ | ⟨-, hL2, -⟩ | ⟨-, -, hA2, -⟩ |
    ⟨-, -, -, hC, -⟩ | ⟨-, -, -, -, hRows, -⟩ |
    ⟨-, -, -, -, -, dbt, evst, namest, err, hrec, hrest⟩
  · rw [hinit] at hI2
    cases hI2
  · rw [hlock] at hL2
    cases hL2
  · rw [hacq] at hA2
    cases hA2
  · exact absurd hC hcur
  · exact absurd hRows hne
  · obtain ⟨nm, hnm1, hnm2, hnm3⟩ := runRollbackTx_missing hdown hdel hlist
      (lastBatchRows db) { db with locked := true } ⟨row, hrowlast, hrowmiss⟩
    rw [hrec] at hnm3
    simp only at hnm3
    rcases hrest with ⟨herr, heq⟩ | ⟨e, herr, heq⟩
    · rw [herr] at hnm3
      cases hnm3
    · rw [herr] at hnm3
      simp only [Option.some.injEq] at hnm3
      subst hnm3
      unfold finallyRelease at heq
      rw [if_neg (by simp [hrel]), h] at heq
      simp only [Prod.mk.injEq, Except.ok.injEq] at heq
      obtain ⟨-, -, hr⟩ := heq
      subst hr
      exact ⟨rfl, nm, hnm1, hnm2, rfl⟩

/-- Witness for the amended C6: a batch containing 002_ghost.ts with no
matching catalog unit. -/
theorem c6_rollback_missing_unit_witness :
    ((⟨false, some (.execution "Rollback failed"
        (.file (notFoundMsg "002_ghost.ts"))), []⟩ : MigrationResult Unit).success =
      false) ∧
    ∃ nm, nm ∈ (lastBatchRows dbWithGhost).map LedgerRow.name ∧
      nm ∉ migOnlyA.migrations.map Migration.name ∧
      (⟨false, some (.execution "Rollback failed"
        (.file (notFoundMsg "002_ghost.ts"))), []⟩ : MigrationResult Unit).error =
        some (.execution "Rollback failed" (.file (notFoundMsg nm))) :=
  c6_rollback_missing_unit migOnlyA cleanB dbWithGhost
    ((migOnlyA.rollback cleanB dbWithGhost).1)
    ((migOnlyA.rollback cleanB dbWithGhost).2.1)
    ⟨false, some (.execution "Rollback failed" (.file (notFoundMsg "002_ghost.ts"))), []⟩
    rfl rfl rfl rfl
    (by
      intro mg hmg s
      simp only [migOnlyA] at hmg
      rw [List.mem_singleton] at hmg
      subst hmg
      exact ⟨s - 1, rfl⟩)
    (fun _ => rfl) (fun _ _ => rfl) (by decide)
    ⟨⟨"002_ghost.ts", "T", 1⟩, by decide, by decide, by decide⟩
    rfl

/-- C7 counterexample: with an empty catalog and a ledger holding one row,
status() reports pending = 0 - 1 = -1, whereas the count of catalog units
whose name is not present in the ledger is 0; the two quantities differ
when the ledger holds names outside the catalog. -/
theorem c7_pending_counterexample :
    migEmpty.status dbGhost1 = .ok ⟨1, -1, [⟨"001_x.ts", "T", 1⟩]⟩ ∧
    specStatusPendingCount migEmpty dbGhost1 = 0 ∧ ((-1 : Int) ≠ 0) :=
  ⟨rfl, rfl, by decide⟩

theorem length_filter_not_mem {cat L : List String}
    (hsub : ∀ nm ∈ L, nm ∈ cat) (hcat : cat.Nodup) (hL : L.Nodup) :
    ((cat.filter (fun nm => decide (nm ∉ L))).length : Int) =
      (cat.length : Int) - (L.length : Int) := by
  have hperm := List.filter_append_perm (fun nm => decide (nm ∈ L)) cat
  have hlen : (cat.filter (fun nm => decide (nm ∈ L))).length +
      (cat.filter (fun x => !decide (x ∈ L))).length = cat.length := by
    have := hperm.length_eq
    simpa [List.length_append] using this
  have hinperm : (cat.filter (fun nm => decide (nm ∈ L))).Perm L := by
    rw [List.perm_ext_iff_of_nodup (hcat.filter _) hL]
    intro a
    simp only [List.mem_filter, decide_eq_true_eq]
    constructor
    · exact fun h2 => h2.2
    · exact fun h2 => ⟨hsub a h2, h2⟩
  have hLlen : (cat.filter (fun nm => decide (nm ∈ L))).length = L.length :=
    hinperm.length_eq
  have hnotEq : cat.filter (fun nm => decide (nm ∉ L)) =
      cat.filter (fun x => !decide (x ∈ L)) := by
    apply List.filter_congr
    intro x hx
    simp
  rw [hnotEq]
  omega

/-- C7 amended: status() returns currentBatch equal to the maximum batch
number in the ledger (0 when empty), applied equal to the ledger rows
ordered by batch ascending then name ascending, but pending equal to the
number of catalog units minus the number of distinct ledger names, which
agrees with the count of catalog units not present in the ledger only when
every ledger name belongs to the (duplicate-free) catalog. -/
theorem c7_status_spec (m : Migrator σ ε) (db : Db σ) (hinit : m.initErr = none) :
    ∃ st, m.status db = .ok st ∧
      (db.ledger = [] → st.currentBatch = 0) ∧
      (∀ row ∈ db.ledger, row.batch ≤ st.currentBatch) ∧
      (db.ledger ≠ [] → ∃ row ∈ db.ledger, row.batch = st.currentBatch) ∧
      st.pending = (m.migrations.length : Int) -
        ((db.ledger.map LedgerRow.name).dedup.length : Int) ∧
      ((∀ nm ∈ ledgerNames db, nm ∈ m.migrations.map Migration.name) →
        (m.migrations.map Migration.name).Nodup → (ledgerNames db).Nodup →
        st.pending = specStatusPendingCount m db) ∧
      st.applied.Perm db.ledger ∧ st.applied.Pairwise rowBatchNameLe := by
  refine ⟨⟨getCurrentBatch db,
    (m.migrations.length : Int) - ((db.ledger.map LedgerRow.name).dedup.length : Int),
    List.insertionSort rowBatchNameLe db.ledger⟩,
    by unfold Migrator.status; rw [hinit], ?_, ?_, ?_, rfl, ?_, ?_, ?_⟩
  · intro h
    simp [getCurrentBatch, h]
  · intro row hrow
    exact le_foldr_max _ _ (List.mem_map.mpr ⟨row, hrow, rfl⟩)
  · intro hne
    have hmapne : db.ledger.map LedgerRow.batch ≠ [] := by simpa using hne
    obtain ⟨row, hrow, hb⟩ := List.mem_map.mp (foldr_max_mem _ hmapne)
    exact ⟨row, hrow, hb⟩
  · intro hsub hnodupC hnodupL
    have h1 : (ledgerNames db).dedup = ledgerNames db := hnodupL.dedup
    have h2 := @length_filter_not_mem (m.migrations.map Migration.name)
      (ledgerNames db) hsub hnodupC hnodupL
    have h3 : ((m.migrations.map Migration.name).filter
        (fun nm => decide (nm ∉ ledgerNames db))).length =
        (m.migrations.filter (fun mg => decide (mg.name ∉ ledgerNames db))).length := by
      rw [List.filter_map, List.length_map]
      exact congrArg List.length (List.filter_congr (fun x hx => rfl))
    have h4 : specStatusPendingCount m db =
        (((m.migrations.map Migration.name).filter
          (fun nm => decide (nm ∉ ledgerNames db))).length : Int) := by
      unfold specStatusPendingCount
      exact_mod_cast h3.symm
    simp only [h4, h2, List.length_map]
    unfold ledgerNames at h1
    rw [h1]
    simp [ledgerNames]
  · exact List.perm_insertionSort _ _
  · exact List.sorted_insertionSort _ _

/-- Witness for the amended C7 at a concrete catalog and ledger. -/
theorem c7_status_spec_witness :
    ∃ st, migAB.status dbTwoRows = .ok st ∧
      (dbTwoRows.ledger = [] → st.currentBatch = 0) ∧
      (∀ row ∈ dbTwoRows.ledger, row.batch ≤ st.currentBatch) ∧
      (dbTwoRows.ledger ≠ [] → ∃ row ∈ dbTwoRows.ledger, row.batch = st.currentBatch) ∧
      st.pending = (migAB.migrations.length : Int) -
        ((dbTwoRows.ledger.map LedgerRow.name).dedup.length : Int) ∧
      ((∀ nm ∈ ledgerNames dbTwoRows, nm ∈ migAB.migrations.map Migration.name) →
        (migAB.migrations.map Migration.name).Nodup → (ledgerNames dbTwoRows).Nodup →
        st.pending = specStatusPendingCount migAB dbTwoRows) ∧
      st.applied.Perm dbTwoRows.ledger ∧ st.applied.Pairwise rowBatchNameLe :=
  c7_status_spec migAB dbTwoRows rfl

/-- C9: Catalog construction filters and names by filename: entries not
ending in .ts or .js are ignored without affecting the result, the units
are ordered by lexicographic sort of the filenames, and each unit's
recorded name is the full filename including its extension. -/
theorem c9_loader_filter_sort (entries : List (DirEntry σ ε)) :
    loadMigrationsFromDirectory (.ok entries) =
      loadMigrationsFromDirectory
        (.ok (entries.filter (fun e => isMigrationFile e.name))) ∧
    ∀ cat, loadMigrationsFromDirectory (.ok entries) = .ok cat →
      cat.map Migration.name =
        (List.insertionSort entryNameLe
          (entries.filter (fun e => isMigrationFile e.name))).map DirEntry.name := by
  constructor
  · unfold loadMigrationsFromDirectory
    dsimp only
    have hff : (entries.filter (fun e => isMigrationFile e.name)).filter
        (fun e => isMigrationFile e.name) =
        entries.filter (fun e => isMigrationFile e.name) := by
      rw [List.filter_filter]
      exact List.filter_congr fun x _ => Bool.and_self _
    rw [hff]
  · intro cat hcat
    unfold loadMigrationsFromDirectory at hcat
    exact loadFiles_ok_names _ _ hcat

/-- Witness for C9: a listing with two migration files out of order and one
ignored (unloadable) file. -/
theorem c9_loader_filter_sort_witness :
    dirCatalog.map Migration.name =
      (List.insertionSort entryNameLe
        (dirListing.filter (fun e => isMigrationFile e.name))).map DirEntry.name :=
  (c9_loader_filter_sort dirListing).2 dirCatalog rfl

/-- C5: Batch reversibility.  For a catalog with strictly ascending unit
names applied onto an empty ledger, a successful apply() followed by a
successful rollback() leaves the ledger empty, and the rollback Result's
appliedMigrations equals the apply Result's appliedMigrations reversed. -/
theorem c5_batch_reversibility (m : Migrator σ ε) (b : Behaviour ε)
    (db db1 db2 : Db σ) (evs1 evs2 : List Event) (r1 r2 : MigrationResult ε)
    (hempty : db.ledger = [])
    (hsorted : (m.migrations.map Migration.name).Pairwise (fun x y => strLt x y = true))
    (h1 : m.apply b db = (db1, evs1, .ok r1)) (hs1 : r1.success = true)
    (h2 : m.rollback b db1 = (db2, evs2, .ok r2)) (hs2 : r2.success = true) :
    db2.ledger = [] ∧ r2.appliedMigrations = r1.appliedMigrations.reverse := by
  obtain ⟨hI, hL, hA, hR, hLock1, hLedger1, hr1⟩ := apply_ok_success h1 hs1
  have hgc : getCurrentBatch db = 0 := by simp [getCurrentBatch, hempty]
  have hpend : pendingOf m db = m.migrations := by
    unfold pendingOf
    rw [List.filter_eq_self]
    intro mg hmg
    simp [ledgerNames, hempty]
  rw [hpend, hempty, hgc] at hLedger1
  simp only [List.nil_append, Nat.zero_add] at hLedger1
  rw [hpend] at hr1
  by_cases hmnil : m.migrations = []
  · rw [hmnil] at hLedger1
    simp only [List.map_nil] at hLedger1
    have hgc1 : getCurrentBatch db1 = 0 := by simp [getCurrentBatch, hLedger1]
    rcases rollback_cases m b db1 with ⟨e, hI2, -⟩ | ⟨-, hL2, -⟩ | ⟨-, -, hA2, -⟩ |
      ⟨-, -, -, -, heq⟩ | ⟨-, -, -, hC, -, -⟩ | ⟨-, -, -, hC, -, -⟩
    · rw [hI] at hI2
      cases hI2
    · rw [hLock1] at hL2
      cases hL2
    · rw [hA] at hA2
      cases hA2
    · unfold finallyRelease at heq
      rw [if_neg (by simp [hR]), h2] at heq
      simp only [Prod.mk.injEq, Except.ok.injEq] at heq
      obtain ⟨hdb2, -, hr2⟩ := heq
      subst hr2
      refine ⟨by simp [hdb2, hLedger1], ?_⟩
      rw [hr1, hmnil]
      rfl
    · exact absurd hgc1 hC
    · exact absurd hgc1 hC
  · have hnonempty : db1.ledger ≠ [] := by
      rw [hLedger1]
      simpa using hmnil
    have hbatch1 : ∀ row ∈ db1.ledger, row.batch = 1 := by
      rw [hLedger1]
      intro row hrow
      obtain ⟨mg, -, hmg⟩ := List.mem_map.mp hrow
      rw [← hmg]
    have hgc1 : getCurrentBatch db1 = 1 := by
      have hne' : db1.ledger.map LedgerRow.batch ≠ [] := by simpa using hnonempty
      obtain ⟨row, hrow, heqb⟩ := List.mem_map.mp (foldr_max_mem _ hne')
      have : getCurrentBatch db1 = row.batch := heqb.symm
      rw [this]
      exact hbatch1 row hrow
    have hfil : db1.ledger.filter
        (fun q => decide (q.batch = getCurrentBatch db1)) = db1.ledger := by
      rw [List.filter_eq_self]
      intro row hrow
      simp [hbatch1 row hrow, hgc1]
    have hnames : (db1.ledger.map LedgerRow.name).Pairwise
        (fun x y => strLt x y = true) := by
      rw [hLedger1, List.map_map]
      simpa [Function.comp] using hsorted
    have hrows : lastBatchRows db1 = db1.ledger.reverse := by
      unfold lastBatchRows
      rw [hfil]
      exact insertionSort_desc_eq_reverse _ hnames
    have hrowsne : lastBatchRows db1 ≠ [] := by
      rw [hrows]
      simpa using hnonempty
    rcases rollback_cases m b db1 with ⟨e, hI2, -⟩ | ⟨-, hL2, -⟩ | ⟨-, -, hA2, -⟩ |
      ⟨-, -, -, hC, -⟩ | ⟨-, -, -, -, hRows, -⟩ |
      ⟨-, -, -, -, -, dbt, evst, namest, err, hrec, hrest⟩
    · rw [hI] at hI2
      cases hI2
    · rw [hLock1] at hL2
      cases hL2
    · rw [hA] at hA2
      cases hA2
    · rw [hgc1] at hC
      cases hC
    · exact absurd hRows hrowsne
    · rcases hrest with ⟨herr, heq⟩ | ⟨e, herr, heq⟩
      · subst herr
        unfold finallyRelease at heq
        rw [if_neg (by simp [hR]), h2] at heq
        simp only [Prod.mk.injEq, Except.ok.injEq] at heq
        obtain ⟨hdb2, -, hr2⟩ := heq
        subst hr2
        obtain ⟨htledger, htnames, -⟩ :=
          runRollbackTx_ok (lastBatchRows db1) _ dbt evst namest hrec
        constructor
        · rw [hdb2]
          simp only
          rw [htledger]
          simp only
          rw [List.filter_eq_nil_iff]
          intro x hx
          intro hall
          have hxrows : x ∈ lastBatchRows db1 := by
            rw [hrows]
            exact List.mem_reverse.mpr hx
          have := List.all_eq_true.mp hall x hxrows
          simp [hbatch1 x hx, hgc1] at this
        · rw [htnames, hrows, List.map_reverse, hLedger1, List.map_map, hr1]
          simp [Function.comp]
      · subst herr
        unfold finallyRelease at heq
        rw [if_neg (by simp [hR]), h2] at heq
        simp only [Prod.mk.injEq, Except.ok.injEq] at heq
        obtain ⟨-, -, hr2⟩ := heq
        subst hr2
        simp at hs2

/-- Witness for C5: the two-unit catalog applied to the empty database and
rolled back. -/
theorem c5_batch_reversibility_witness :
    (migAB.rollback cleanB c1Db).1.ledger = [] ∧
    (⟨true, none, ["002_b.ts", "001_a.ts"]⟩ : MigrationResult Unit).appliedMigrations =
      c1R.appliedMigrations.reverse :=
  c5_batch_reversibility migAB cleanB emptyDb c1Db
    ((migAB.rollback cleanB c1Db).1) c1Evs
    ((migAB.rollback cleanB c1Db).2.1) c1R
    ⟨true, none, ["002_b.ts", "001_a.ts"]⟩
    rfl (by decide) rfl rfl rfl rfl

end SqliteUp
